import Mathlib

/-!
# Verification of the `quack` snapshot/rotation/rollback controller

Shallow embedding of `quack.go`. The snapshot directory is modelled as a
list of entry names; a directory is a finite set of names, the model keeps
its listing, and `listDir` returns it sorted ascending exactly as `listDir`
in the source sorts with `sort.Strings`. Snapshot names in the source are
ULID strings, compared lexicographically; Lean's kernel cannot evaluate
`String`'s order (it is defined through well-founded recursion), so names
are drawn from an arbitrary decidable linear order `α` — concrete
instances in witnesses use `Nat`, where `0 < 1 < 2` plays the role of
`"a" < "b" < "c"`. The embedded query engine is out of scope in the spec,
so engine statements are modelled by their documented effect on a pure
table catalog, and the points where an engine call may fail are explicit
boolean parameters. Go runtime panics (slice/index out of range) are
modelled as a distinguished `QErr` value, since they abort the operation.
-/

namespace Quack

/-- Outcomes of a failing operation. `indexOutOfRange` stands for a Go
runtime panic on a slice/index expression (`matches[n:]`, `matches[len-n]`),
which is not an error return in Go but aborts the operation. -/
inductive QErr where
  | invalidArgument
  | notFound
  | engineError
  | ioError
  | indexOutOfRange
deriving DecidableEq

variable {α : Type} [LinearOrder α]

/-- `listDir` (quack.go lines 21-32): returns the directory's entry names
sorted lexicographically ascending. In the model the directory always
exists, so the error branch does not arise. -/
def listDir (dir : List α) : List α :=
  List.insertionSort (· ≤ ·) dir

/-- `rotate` (quack.go lines 34-48): lists the directory; if the count
exceeds `n` it deletes every entry of `matches[n:]` — the entries from
index `n` to the end of the ascending sort. Removing those from the
directory leaves exactly the first `n` entries of the sort. Go's
`matches[n:]` panics when `n < 0` (modelled as `none`); deletions
themselves are modelled as succeeding. The result is the retained
directory contents, as a listing. -/
def rotate (n : Int) (dir : List α) : Option (List α) :=
  if (((listDir dir).length : Int)) > n then
    if n < 0 then none
    else some ((listDir dir).take n.toNat)
  else some (listDir dir)

theorem listDir_sorted (dir : List α) : (listDir dir).Sorted (· ≤ ·) :=
  List.sorted_insertionSort _ dir

theorem listDir_of_sorted {l : List α} (h : l.Sorted (· ≤ ·)) :
    listDir l = l :=
  List.Sorted.insertionSort_eq h

/-- C1: the claim says `rotate` deletes the lexicographically smallest
entries and retains the `n` greatest. The code deletes `matches[n:]`
after an ascending sort, i.e. it retains the `n` smallest names and
deletes the `count - n` greatest ones: on `{"a","b","c"}` (here `{0,1,2}`)
with `n = 2` it keeps `{"a","b"}` (`{0,1}`) and deletes `"c"` (`2`), not
the claimed `{"b","c"}` (`{1,2}`). -/
theorem rotate_retains_smallest_not_greatest :
    rotate 2 [(0 : Nat), 1, 2] = some [0, 1] ∧
      rotate 2 [(0 : Nat), 1, 2] ≠ some [1, 2] := by
  decide

/-- C8: rotation is idempotent — if `rotate n` succeeds and leaves the
retained contents `l'`, running `rotate n` again on `l'` succeeds and
leaves `l'` unchanged. -/
theorem rotate_idempotent (n : Int) (dir l' : List α)
    (h : rotate n dir = some l') : rotate n l' = some l' := by
  unfold rotate at h ⊢
  by_cases hgt : (((listDir dir).length : Int)) > n
  · by_cases hneg : n < 0
    · rw [if_pos hgt, if_pos hneg] at h
      exact absurd h (by simp)
    · rw [if_pos hgt, if_neg hneg] at h
      have hl' : l' = (listDir dir).take n.toNat := by
        injection h with h'
        exact h'.symm
      have hsorted : l'.Sorted (· ≤ ·) := by
        rw [hl']
        exact List.Pairwise.sublist (List.take_sublist _ _) (listDir_sorted dir)
      have hld : listDir l' = l' := listDir_of_sorted hsorted
      have hlen : l'.length = n.toNat := by
        rw [hl', List.length_take]
        have h0 : (0 : Int) ≤ n := not_lt.mp hneg
        have h1 : (n.toNat : Int) = n := Int.toNat_of_nonneg h0
        omega
      have hcond : ¬ (((listDir l').length : Int) > n) := by
        rw [hld, hlen]
        have h0 : (0 : Int) ≤ n := not_lt.mp hneg
        omega
      rw [if_neg hcond, hld]
  · rw [if_neg hgt] at h
    have hl' : l' = listDir dir := by
      injection h with h'
      exact h'.symm
    have hld : listDir l' = l' := listDir_of_sorted (hl' ▸ listDir_sorted dir)
    have hcond : ¬ (((listDir l').length : Int) > n) := by
      rw [hld, hl']
      exact hgt
    rw [if_neg hcond, hld]

/-- Witness for C8 at a concrete input: one rotation of `{1, 0}` with
`n = 1` retains `{0}`, and rotating again leaves `{0}`. -/
theorem rotate_idempotent_witness : rotate 1 [(0 : Nat)] = some [0] :=
  rotate_idempotent 1 [1, 0] [0] (by decide)

/-! ## Table catalog and the ingestion engine -/

/-- The engine's table catalog: an association list from table name to the
table's rows (`R` is the row type; the engine's schema handling is out of
scope). The source holds no cached catalog — this is the engine-side state
that `SHOW TABLES`, `CREATE TABLE`, `COPY` and `DROP TABLE` act on. -/
abbrev Catalog (R : Type) : Type := List (String × List R)

/-- `showTables` (quack.go lines 102-117): `SHOW TABLES;` yields the name
of every table in the catalog. -/
def showTables {R : Type} (cat : Catalog R) : List String :=
  cat.map Prod.fst

/-- `tableExists` (quack.go lines 119-130): scans the `SHOW TABLES` result
for the name; the source returns `nil` when found and `os.ErrNotExist`
otherwise, modelled as a `Bool`. -/
def tableExists {R : Type} (cat : Catalog R) (t : String) : Bool :=
  (showTables cat).any (fun s => decide (s = t))

/-- `insert` (quack.go lines 140-163): stages the record stream to a
temporary file (pure here — the stream is already a list of records),
then, when the table is absent, issues
`CREATE TABLE t AS SELECT * FROM read_json_auto(...)` — one row per staged
record; when present, issues `COPY t FROM ... (FORMAT json)` — appending
one row per staged record to the existing rows. -/
def insert {R : Type} (cat : Catalog R) (t : String) (recs : List R) : Catalog R :=
  if tableExists cat t then
    cat.map (fun p => if p.1 = t then (p.1, p.2 ++ recs) else p)
  else cat ++ [(t, recs)]

/-- Observation on the engine state: the rows of table `t`
(`SELECT * FROM t`), `none` when the table does not exist. -/
def lookupTable {R : Type} : Catalog R → String → Option (List R)
  | [], _ => none
  | p :: cat, t => if p.1 = t then some p.2 else lookupTable cat t

/-- Observation on the engine state: total number of rows across all
tables. -/
def totalRows {R : Type} (cat : Catalog R) : Nat :=
  (cat.map (fun p => p.2.length)).sum

/-- Engine invariant: table names are unique in the catalog. -/
abbrev KeysNodup {R : Type} (cat : Catalog R) : Prop :=
  (showTables cat).Nodup

/-- A sequence of `Insert` calls, each giving a table name and the staged
records. -/
def insertSeq {R : Type} (cat : Catalog R) (ops : List (String × List R)) : Catalog R :=
  ops.foldl (fun c op => insert c op.1 op.2) cat

theorem tableExists_iff {R : Type} (cat : Catalog R) (t : String) :
    tableExists cat t = true ↔ t ∈ showTables cat := by
  simp [tableExists]

theorem tableExists_false_forall {R : Type} {cat : Catalog R} {t : String}
    (h : tableExists cat t = false) : ∀ p ∈ cat, p.1 ≠ t := by
  intro p hp hpt
  have : t ∈ showTables cat := by
    simp only [showTables, List.mem_map]
    exact ⟨p, hp, hpt⟩
  rw [← tableExists_iff] at this
  rw [h] at this
  exact Bool.false_ne_true this

theorem lookupTable_append_single {R : Type} (cat : Catalog R) (t : String)
    (recs : List R) (h : ∀ p ∈ cat, p.1 ≠ t) :
    lookupTable (cat ++ [(t, recs)]) t = some recs := by
  induction cat with
  | nil => simp [lookupTable]
  | cons p cat ih =>
    have hp : p.1 ≠ t := h p (List.mem_cons_self p cat)
    simp only [List.cons_append, lookupTable, if_neg hp]
    exact ih (fun q hq => h q (List.mem_cons_of_mem p hq))

theorem lookupTable_mem_keys {R : Type} {cat : Catalog R} {t : String}
    {rows : List R} (h : lookupTable cat t = some rows) : t ∈ showTables cat := by
  induction cat with
  | nil => simp [lookupTable] at h
  | cons p cat ih =>
    by_cases hp : p.1 = t
    · simp [showTables, hp]
    · simp only [lookupTable, if_neg hp] at h
      simp only [showTables, List.map_cons, List.mem_cons]
      exact Or.inr (ih h)

theorem insert_lookup_absent {R : Type} {cat : Catalog R} {t : String}
    (recs : List R) (h : tableExists cat t = false) :
    lookupTable (insert cat t recs) t = some recs := by
  rw [insert, if_neg (by simp [h])]
  exact lookupTable_append_single cat t recs (tableExists_false_forall h)

theorem insert_lookup_present {R : Type} {cat : Catalog R} {t : String}
    {rows : List R} (recs : List R) (h : lookupTable cat t = some rows) :
    lookupTable (insert cat t recs) t = some (rows ++ recs) := by
  have hex : tableExists cat t = true :=
    (tableExists_iff cat t).mpr (lookupTable_mem_keys h)
  rw [insert, if_pos hex]
  clear hex
  induction cat with
  | nil => simp [lookupTable] at h
  | cons p cat ih =>
    by_cases hp : p.1 = t
    · simp only [lookupTable, if_pos hp] at h
      injection h with h
      subst h
      simp [List.map_cons, lookupTable, hp]
    · simp only [lookupTable, if_neg hp] at h
      simp only [List.map_cons, if_neg hp, lookupTable]
      exact ih h

theorem lookupTable_map_modify {R : Type} (cat : Catalog R) (t u : String)
    (recs : List R) (hu : u ≠ t) :
    lookupTable (cat.map (fun p => if p.1 = t then (p.1, p.2 ++ recs) else p)) u
      = lookupTable cat u := by
  induction cat with
  | nil => rfl
  | cons p cat ih =>
    by_cases hp : p.1 = t
    · have hpu : ¬ (p.1 = u) := fun hc => hu (hc ▸ hp)
      simp only [List.map_cons, if_pos hp, lookupTable, if_neg hpu]
      exact ih
    · simp only [List.map_cons, if_neg hp, lookupTable]
      by_cases hpu : p.1 = u
      · rw [if_pos hpu, if_pos hpu]
      · rw [if_neg hpu, if_neg hpu]
        exact ih

theorem lookupTable_append_other {R : Type} (cat : Catalog R) (t u : String)
    (recs : List R) (hu : u ≠ t) :
    lookupTable (cat ++ [(t, recs)]) u = lookupTable cat u := by
  induction cat with
  | nil =>
    have ht : ¬ (t = u) := fun hc => hu hc.symm
    simp [lookupTable, ht]
  | cons p cat ih =>
    simp only [List.cons_append, lookupTable]
    by_cases hpu : p.1 = u
    · rw [if_pos hpu, if_pos hpu]
    · rw [if_neg hpu, if_neg hpu]
      exact ih

theorem insert_lookup_other {R : Type} (cat : Catalog R) (t : String)
    (recs : List R) (u : String) (hu : u ≠ t) :
    lookupTable (insert cat t recs) u = lookupTable cat u := by
  rw [insert]
  by_cases hex : tableExists cat t
  · rw [if_pos hex]
    exact lookupTable_map_modify cat t u recs hu
  · rw [if_neg hex]
    exact lookupTable_append_other cat t u recs hu

theorem map_modify_id {R : Type} (cat : Catalog R) (t : String) (recs : List R)
    (h : ∀ p ∈ cat, p.1 ≠ t) :
    cat.map (fun p => if p.1 = t then (p.1, p.2 ++ recs) else p) = cat := by
  induction cat with
  | nil => rfl
  | cons p cat ih =>
    simp only [List.map_cons, if_neg (h p (List.mem_cons_self p cat))]
    rw [ih (fun q hq => h q (List.mem_cons_of_mem p hq))]

theorem totalRows_insert {R : Type} (cat : Catalog R) (t : String)
    (recs : List R) (h : KeysNodup cat) :
    totalRows (insert cat t recs) = totalRows cat + recs.length := by
  rw [insert]
  by_cases hex : tableExists cat t
  · rw [if_pos hex]
    induction cat with
    | nil => simp [tableExists, showTables] at hex
    | cons p cat ih =>
      have hnd : KeysNodup cat := (List.nodup_cons.mp h).2
      have hnotin : p.1 ∉ showTables cat := (List.nodup_cons.mp h).1
      by_cases hp : p.1 = t
      · have hrest : ∀ q ∈ cat, q.1 ≠ t := by
          intro q hq hqt
          exact hnotin (by
            simp only [showTables, List.mem_map]
            exact ⟨q, hq, hqt.trans hp.symm⟩)
        simp only [List.map_cons, if_pos hp, map_modify_id cat t recs hrest,
          totalRows, List.map_cons, List.sum_cons, List.length_append]
        omega
      · have hex' : tableExists cat t := by
          simp only [tableExists, showTables, List.map_cons, List.any_cons] at hex
          rcases Bool.or_eq_true_iff.mp hex with h1 | h1
          · exact absurd (of_decide_eq_true h1) hp
          · exact h1
        simp only [List.map_cons, if_neg hp, totalRows, List.sum_cons]
        have := ih hnd hex'
        simp only [totalRows] at this
        omega
  · rw [if_neg hex]
    simp [totalRows, List.map_append]

theorem keysNodup_insert {R : Type} (cat : Catalog R) (t : String)
    (recs : List R) (h : KeysNodup cat) : KeysNodup (insert cat t recs) := by
  rw [insert]
  by_cases hex : tableExists cat t
  · rw [if_pos hex]
    have hkeys : showTables (cat.map (fun p => if p.1 = t then (p.1, p.2 ++ recs) else p))
        = showTables cat := by
      simp only [showTables, List.map_map]
      apply List.map_congr_left
      intro p _
      by_cases hp : p.1 = t
      · simp [hp]
      · simp [hp]
    unfold KeysNodup
    rw [hkeys]
    exact h
  · rw [if_neg hex]
    unfold KeysNodup at h ⊢
    simp only [showTables, List.map_append, List.map_cons, List.map_nil]
    rw [List.nodup_append]
    refine ⟨h, List.nodup_singleton t, ?_⟩
    intro x hx hx'
    have : x = t := by simpa using hx'
    subst this
    have : tableExists cat x = true := (tableExists_iff cat x).mpr hx
    exact hex this

theorem totalRows_insertSeq {R : Type} (cat : Catalog R)
    (ops : List (String × List R)) (h : KeysNodup cat) :
    totalRows (insertSeq cat ops)
      = totalRows cat + (ops.map (fun op => op.2.length)).sum := by
  induction ops generalizing cat with
  | nil => simp [insertSeq]
  | cons op ops ih =>
    simp only [insertSeq, List.foldl_cons, List.map_cons, List.sum_cons]
    have h1 := ih (insert cat op.1 op.2) (keysNodup_insert cat op.1 op.2 h)
    simp only [insertSeq] at h1
    rw [h1, totalRows_insert cat op.1 op.2 h]
    omega

/-- C7: inserting into a nonexistent table creates it with one row per
input record; inserting into an existing table appends one row per record,
leaving the table's prior rows and every other table intact; and after any
sequence of Inserts the total row count grows by exactly the sum of the
record counts across the inserts (so from an empty database it equals that
sum). -/
theorem insert_create_vs_append {R : Type} (cat : Catalog R) (t : String)
    (recs : List R) (h : KeysNodup cat) :
    (tableExists cat t = false → lookupTable (insert cat t recs) t = some recs)
    ∧ (∀ rows, lookupTable cat t = some rows →
        lookupTable (insert cat t recs) t = some (rows ++ recs))
    ∧ (∀ u, u ≠ t → lookupTable (insert cat t recs) u = lookupTable cat u)
    ∧ (∀ ops : List (String × List R),
        totalRows (insertSeq cat ops)
          = totalRows cat + (ops.map (fun op => op.2.length)).sum) := by
  exact ⟨fun hab => insert_lookup_absent recs hab,
    fun rows hrows => insert_lookup_present recs hrows,
    fun u hu => insert_lookup_other cat t recs u hu,
    fun ops => totalRows_insertSeq cat ops h⟩

/-- Witness for C7 at concrete inputs: the catalog `{t ↦ [0]}` has unique
keys; creating a fresh table `u` from records `[1, 2]` yields those rows,
and appending `[3]` to the existing `t` yields `[0, 3]`. -/
theorem insert_create_vs_append_witness :
    KeysNodup [("t", [(0 : Nat)])]
    ∧ lookupTable (insert [("t", [(0 : Nat)])] "u" [1, 2]) "u" = some [1, 2]
    ∧ lookupTable (insert [("t", [(0 : Nat)])] "t" [3]) "t" = some [0, 3] :=
  ⟨by decide,
    (insert_create_vs_append [("t", [(0 : Nat)])] "u" [1, 2] (by decide)).1
      (by decide),
    (insert_create_vs_append [("t", [(0 : Nat)])] "t" [3] (by decide)).2.1
      [0] (by decide)⟩

/-! ## Client, dump protocol (Close) and rollback protocol -/

/-- `Client` (quack.go lines 165-173): the process-state owner. The model
keeps the observable state the claims speak about: the snapshot directory
contents (`<dir>/snapshot`), the engine's table catalog behind the `db`
handle, and the retention limit `n` stored at construction. The mutex
serializes operations and is invisible to this sequential model; the
unused `prefix` field and the raw connection handles are omitted. -/
structure Client (α R : Type) where
  snapdir : List α
  db : Catalog R
  n : Int
deriving DecidableEq

/-- `New` (quack.go lines 177-205): creates the root and snapshot
directories, opens the connector and database, and applies the option
callbacks to a fresh connection. Each step that can fail is a boolean;
the pre-existing on-disk state (snapshot directory contents, database
tables) is passed in. `n` is stored without any validation. -/
def New {α R : Type} (mkRootOk mkSnapOk connectOk optionsOk : Bool)
    (snapdir : List α) (db : Catalog R) (n : Int) : Option (Client α R) :=
  if mkRootOk = false then none
  else if mkSnapOk = false then none
  else if connectOk = false then none
  else if optionsOk = false then none
  else some ⟨snapdir, db, n⟩

/-- `Close` (quack.go lines 259-280) together with `dumpAndZip` (lines
50-64). `os.Create` makes the snapshot file visible in the directory under
its final ULID name `id` immediately, before any data is written.
`dumpAndZip` then runs `EXPORT DATABASE` (failure: `exportOk = false`,
an engine error) and packs the scratch directory into the file (failure:
`archiveOk = false`, an I/O error); on either failure Close returns with
the created file still in place. On success `rotate` runs with the stored
`n`; the final `db.Close`/connector close do not touch the directory.
The result is the error, if any, and the snapshot directory contents. -/
def Close {α : Type} [LinearOrder α] (exportOk archiveOk : Bool) (id : α)
    (snapdir : List α) (n : Int) : Option QErr × List α :=
  let dir1 := id :: snapdir
  if exportOk = false then (some QErr.engineError, dir1)
  else if archiveOk = false then (some QErr.ioError, dir1)
  else
    match rotate n dir1 with
    | none => (some QErr.indexOutOfRange, dir1)
    | some d => (none, d)

/-- `Client.Close` as the client runs it: the stored `c.n` is the
keep-limit handed to `rotate`. -/
def ClientClose {α R : Type} [LinearOrder α] (c : Client α R)
    (exportOk archiveOk : Bool) (id : α) : Option QErr × List α :=
  Close exportOk archiveOk id c.snapdir c.n

/-- A sequence of successful Close calls: each one writes a fresh id into
the directory and rotates. Chronological order of the calls is the list
order of `ids`; fresh ULIDs are strictly increasing, which concrete
instances reflect by choosing increasing ids. -/
def closeSeq {α : Type} [LinearOrder α] (n : Int) :
    List α → List α → Option QErr × List α
  | [], dir => (none, dir)
  | id :: ids, dir =>
    match Close true true id dir n with
    | (none, d) => closeSeq n ids d
    | (some e, d) => (some e, d)

/-- The transactional drop of lines 224-235: `BeginTx`, `DROP TABLE` for
every listed table inside the transaction, then `Commit`. If the commit
fails the deferred `tx.Rollback` is invoked and the engine state is left
untouched — the transaction-local state is discarded and the engine error
surfaces. -/
def dropAllInTx {R : Type} (commitOk : Bool) (tables : List String)
    (db : Catalog R) : Except QErr (Catalog R) :=
  if commitOk then
    .ok (tables.foldl (fun acc t => acc.filter (fun p => decide (p.1 ≠ t))) db)
  else .error QErr.engineError

/-- The snapshot selection of lines 237-238: `matches[len(matches)-n]` on
the ascending-sorted listing. Go's index expression panics unless
`0 ≤ len - n < len`, i.e. unless `0 < n ≤ len`; `none` models the panic. -/
def selectSnapshot {α : Type} (ms : List α) (n : Int) : Option α :=
  if 0 < n ∧ n ≤ (ms.length : Int) then ms[(((ms.length : Int)) - n).toNat]?
  else none

/-- `Client.RollbackSnapshot` (quack.go lines 207-239): validate only
`n > c.n`; list the snapshot directory, failing when empty; read the
catalog; drop every table in one transaction and commit (`commitOk`);
select `matches[len-n]`; `unzipAndLoad` (lines 66-100) unpacks the chosen
archive and runs `IMPORT DATABASE`, recreating that snapshot's tables
(`snapContent` gives each archive's contents) on top of the now-empty
catalog. The result is the error, if any, and the client state afterwards. -/
def RollbackSnapshot {α R : Type} [LinearOrder α] (snapContent : α → Catalog R)
    (commitOk : Bool) (st : Client α R) (n : Int) :
    Option QErr × Client α R :=
  if n > st.n then (some QErr.invalidArgument, st)
  else if (listDir st.snapdir).length = 0 then (some QErr.notFound, st)
  else
    match dropAllInTx commitOk (showTables st.db) st.db with
    | .error e => (some e, st)
    | .ok db1 =>
      match selectSnapshot (listDir st.snapdir) n with
      | none => (some QErr.indexOutOfRange, { st with db := db1 })
      | some name => (none, { st with db := db1 ++ snapContent name })

theorem dropFold_filter {R : Type} (ts : List String) (db : Catalog R) :
    ts.foldl (fun acc t => acc.filter (fun p => decide (p.1 ≠ t))) db
      = db.filter (fun p => decide (p.1 ∉ ts)) := by
  induction ts generalizing db with
  | nil => simp
  | cons t ts ih =>
    rw [List.foldl_cons, ih, List.filter_filter]
    apply List.filter_congr
    intro p _
    by_cases h1 : p.1 = t <;> by_cases h2 : p.1 ∈ ts <;>
      simp [h1, h2, List.mem_cons]

/-- Dropping every table that `SHOW TABLES` lists empties the catalog. -/
theorem dropAllInTx_showTables {R : Type} (db : Catalog R) :
    dropAllInTx true (showTables db) db = .ok ([] : Catalog R) := by
  have hnil : db.filter (fun p => decide (p.1 ∉ showTables db)) = [] := by
    rw [List.filter_eq_nil_iff]
    intro p hp
    simp only [decide_eq_true_eq, Decidable.not_not]
    simp only [showTables, List.mem_map]
    exact ⟨p, hp, rfl⟩
  rw [dropAllInTx, if_pos rfl, dropFold_filter, hnil]

/-- C3: the claim says `RollbackSnapshot(n)` fails with `InvalidArgument`,
without mutating any table, exactly when `n ≤ 0` or `n > N`. The code
validates only `n > N` (quack.go line 208): `n = 0` passes validation,
every table is dropped and the drop committed, and only then does the
selection `matches[len-0]` go out of bounds — a runtime panic with the
tables already lost, not an `InvalidArgument` return. -/
theorem rollbackSnapshot_zero_passes_validation :
    RollbackSnapshot (fun _ => ([] : Catalog Unit)) true
        (⟨[(0 : Nat)], [("t", [()])], 2⟩ : Client Nat Unit) 0
      = (some QErr.indexOutOfRange, ⟨[0], [], 2⟩)
    ∧ (RollbackSnapshot (fun _ => ([] : Catalog Unit)) true
        (⟨[(0 : Nat)], [("t", [()])], 2⟩ : Client Nat Unit) 0).1
      ≠ some QErr.invalidArgument := by
  decide

/-- C9: the claim says the selection index `len(matches)-n` always lies in
bounds once `n ≤ N` passed validation, even with fewer than `n` snapshots
present. With retention `N = 2`, a directory holding one snapshot (the
state after a single Close) and `n = 2`, the index is `1 - 2 = -1`: the
selection is out of bounds and the operation dies after having dropped and
committed away both tables. -/
theorem rollbackSnapshot_out_of_bounds :
    RollbackSnapshot (fun _ => ([] : Catalog Unit)) true
        (⟨[(5 : Nat)], [("t", [()]), ("u", [()])], 2⟩ : Client Nat Unit) 2
      = (some QErr.indexOutOfRange, ⟨[5], [], 2⟩) := by
  decide

/-- C4 counterexample: with retention `N = 3`, a single snapshot on disk
and the valid index `n = 2 ≤ N`, `RollbackSnapshot` does not restore the
snapshot ranked 2nd from the end — no such snapshot exists and the
selection aborts out of bounds instead of succeeding. -/
theorem rollbackSnapshot_valid_index_no_restore :
    (RollbackSnapshot (fun _ => ([] : Catalog Unit)) true
        (⟨[(7 : Nat)], [("t", [()])], 3⟩ : Client Nat Unit) 2).1
      = some QErr.indexOutOfRange := by
  decide

theorem sorted_le_last {α : Type} [LinearOrder α] {l : List α}
    (h : l.Sorted (· ≤ ·)) {x : α} (hx : x ∈ l) {name : α}
    (hname : l[l.length - 1]? = some name) : x ≤ name := by
  induction l with
  | nil => simp at hx
  | cons a t ih =>
    rcases List.sorted_cons.mp h with ⟨ha, ht⟩
    cases t with
    | nil =>
      have hxa : x = a := by simpa using hx
      have hna : a = name := by simpa using hname
      rw [hxa, hna]
    | cons b t' =>
      have hname' : (b :: t')[(b :: t').length - 1]? = some name := by
        have hl : (a :: b :: t').length - 1 = ((b :: t').length - 1) + 1 := by
          simp
        rw [hl, List.getElem?_cons_succ] at hname
        exact hname
      rcases List.mem_cons.mp hx with rfl | hxt
      · exact ha name (List.getElem?_mem hname')
      · exact ih ht hxt hname'

/-- C4 (amended): for every `n` with `0 < n ≤ N` that moreover does not
exceed the number of snapshots present, `RollbackSnapshot(n)` succeeds and
imports exactly the snapshot at index `len - n` of the ascending-sorted
listing; for `n = 1` that snapshot's name is lexicographically greatest. -/
theorem rollbackSnapshot_selects_nth_from_end {α R : Type} [LinearOrder α]
    (snapContent : α → Catalog R) (st : Client α R) (n : Int)
    (h0 : 0 < n) (hN : n ≤ st.n)
    (hlen : n ≤ (((listDir st.snapdir).length : Int))) :
    ∃ name, selectSnapshot (listDir st.snapdir) n = some name
      ∧ RollbackSnapshot snapContent true st n
          = (none, { st with db := snapContent name })
      ∧ (n = 1 → ∀ x ∈ listDir st.snapdir, x ≤ name) := by
  have hpos : 0 < (listDir st.snapdir).length := by omega
  have hidx : ((((listDir st.snapdir).length : Int)) - n).toNat
      < (listDir st.snapdir).length := by omega
  obtain ⟨name, hname⟩ : ∃ name,
      (listDir st.snapdir)[((((listDir st.snapdir).length : Int)) - n).toNat]?
        = some name := by
    exact ⟨(listDir st.snapdir)[((((listDir st.snapdir).length : Int)) - n).toNat],
      List.getElem?_eq_getElem hidx⟩
  refine ⟨name, ?_, ?_, ?_⟩
  · rw [selectSnapshot, if_pos ⟨h0, hlen⟩]
    exact hname
  · rw [RollbackSnapshot, if_neg (by omega : ¬ n > st.n),
      if_neg (by omega : ¬ (listDir st.snapdir).length = 0),
      dropAllInTx_showTables]
    have hsel : selectSnapshot (listDir st.snapdir) n = some name := by
      rw [selectSnapshot, if_pos ⟨h0, hlen⟩]
      exact hname
    rw [hsel]
    simp
  · intro h1 x hx
    have : ((((listDir st.snapdir).length : Int)) - n).toNat
        = (listDir st.snapdir).length - 1 := by omega
    rw [this] at hname
    exact sorted_le_last (listDir_sorted st.snapdir) hx hname

/-- Witness for C4 at a concrete input: directory `{3, 5}`, retention 2,
`n = 1` selects the greatest name `5` and imports its contents. -/
theorem rollbackSnapshot_selects_witness :
    ∃ name, selectSnapshot (listDir [(3 : Nat), 5]) 1 = some name
      ∧ RollbackSnapshot (fun k => [("snap", List.replicate k ())]) true
          (⟨[(3 : Nat), 5], [("t", [()])], 2⟩ : Client Nat Unit) 1
          = (none, ⟨[3, 5], [("snap", List.replicate name ())], 2⟩)
      ∧ ((1 : Int) = 1 → ∀ x ∈ listDir [(3 : Nat), 5], x ≤ name) := by
  exact rollbackSnapshot_selects_nth_from_end
    (fun k => [("snap", List.replicate k ())])
    (⟨[(3 : Nat), 5], [("t", [()])], 2⟩ : Client Nat Unit) 1
    (by decide) (by decide) (by decide)

/-- C5: all current tables are dropped inside a single transaction —
committing that transaction alone leaves the catalog empty — and if the
commit fails, the transaction's rollback leaves every table in place:
`RollbackSnapshot` returns the engine error with the client state, tables
included, unchanged. -/
theorem rollbackSnapshot_commit_failure {α R : Type} [LinearOrder α]
    (snapContent : α → Catalog R) (st : Client α R) (n : Int)
    (hN : ¬ n > st.n) (hne : ¬ (listDir st.snapdir).length = 0) :
    RollbackSnapshot snapContent false st n = (some QErr.engineError, st)
    ∧ dropAllInTx true (showTables st.db) st.db = .ok ([] : Catalog R) := by
  constructor
  · rw [RollbackSnapshot, if_neg hN, if_neg hne]
    have hd : dropAllInTx (R := R) false (showTables st.db) st.db
        = .error QErr.engineError := rfl
    rw [hd]
  · exact dropAllInTx_showTables st.db

/-- Witness for C5 at a concrete input: one snapshot on disk, two tables,
retention 1, `n = 1`, commit failing. -/
theorem rollbackSnapshot_commit_failure_witness :
    RollbackSnapshot (fun _ => ([] : Catalog Unit)) false
        (⟨[(4 : Nat)], [("t", [()]), ("u", [()])], 1⟩ : Client Nat Unit) 1
      = (some QErr.engineError, ⟨[4], [("t", [()]), ("u", [()])], 1⟩)
    ∧ dropAllInTx true (showTables ([("t", [()]), ("u", [()])] : Catalog Unit))
        [("t", [()]), ("u", [()])] = .ok [] := by
  exact rollbackSnapshot_commit_failure _ _ 1 (by decide) (by decide)

/-- C6: the claim says a failed export or archive step leaves no partial
snapshot file under a name a future listing would pick up. The code
creates the snapshot file under its final ULID name before dumping
(quack.go line 261) and does not remove it on failure: with the export
step failing, Close returns the engine error and the fresh name is still
in the snapshot directory, where `listDir` reports it. -/
theorem close_leaves_partial_snapshot :
    Close false true (9 : Nat) [3] 5 = (some QErr.engineError, [9, 3])
    ∧ (9 : Nat) ∈ listDir (Close false true (9 : Nat) [3] 5).2 := by
  decide

/-- C2: the claim says after `M` successful Closes the directory holds the
`min(M, N)` most recent snapshots. The count is right, but rotation keeps
the lexicographically smallest names: with `N = 1` and two Closes writing
the increasing ULIDs `0` then `1`, the directory ends as `{0}` — the
oldest snapshot — and the most recent snapshot `1` has been deleted. -/
theorem closeSeq_keeps_oldest :
    closeSeq 1 [(0 : Nat), 1] [] = (none, [0])
    ∧ (closeSeq 1 [(0 : Nat), 1] []).2 ≠ [1] := by
  decide

/-- C10: `New` performs no validation of the retention count: for every
`n`, including `n ≤ 0`, construction succeeds whenever directory creation,
the engine connection and the option callbacks succeed, and `n` is stored
as given; `Close` then uses the stored `n` as `rotate`'s keep-limit, so a
client built with `n = 0` rotates away every snapshot — including the one
its own Close just wrote. -/
theorem new_stores_unvalidated_n {α R : Type} [LinearOrder α]
    (snapdir : List α) (db : Catalog R) (n : Int) (id : α) :
    New true true true true snapdir db n = some ⟨snapdir, db, n⟩
    ∧ (New true true true true snapdir db 0).map
        (fun c => ClientClose c true true id) = some (none, []) := by
  constructor
  · rfl
  · have hnew : New true true true true snapdir db (0 : Int)
        = some ⟨snapdir, db, 0⟩ := rfl
    rw [hnew, Option.map_some']
    have hrot : rotate 0 (id :: snapdir) = some [] := by
      rw [rotate]
      have hlen : (listDir (id :: snapdir)).length = snapdir.length + 1 := by
        rw [listDir, List.length_insertionSort]
        rfl
      rw [if_pos (by omega : (((listDir (id :: snapdir)).length : Int)) > 0),
        if_neg (by omega : ¬ (0 : Int) < 0)]
      simp
    have hcc : ClientClose (⟨snapdir, db, 0⟩ : Client α R) true true id
        = (none, []) := by
      show Close true true id snapdir 0 = (none, [])
      rw [Close]
      simp only [if_neg (by decide : ¬ (true = false))]
      rw [hrot]
    rw [hcc]

end Quack
